import Mathlib

/-!
Shallow embedding of `front/plugins/db_cleanup/script.py`, function
`cleanup_database`, from the Pi.Alert repository.

Tables are lists of row structures; each SQL `DELETE` becomes a
`List.filter` keeping exactly the rows the statement does not delete
(SQLite evaluates a `DELETE`'s `WHERE` clause, subqueries included,
against the table state at the start of the statement).

SQLite's `date('now', modifier)` yields a day-granularity date string,
so stored date/datetime columns are modelled as day numbers (`Nat`) and
the clock `now` as a count of hours since the epoch (its day is
`now / 24`).

`ROW_NUMBER() OVER (PARTITION BY k ORDER BY t DESC)` is modelled as one
plus the number of rows of the same partition that sort strictly before
the row.  SQLite leaves the relative order of rows with equal `t`
unspecified; the model fixes that tie-break by ascending row identifier.
-/

/-- SQLite `date('now', '-N day')` with `now` in hours since the epoch:
the day number `now / 24 - N`. -/
def sqlDateNowMinusDays (now N : Nat) : Nat :=
  now / 24 - N

/-- SQLite `date('now', '-H hour')`: the day number of the instant `H`
hours before `now`. -/
def sqlDateNowMinusHours (now H : Nat) : Nat :=
  (now - H) / 24

/-- The strict "sorts before" relation of `ORDER BY dt DESC`: `s` sorts
before `r` iff `s` has the strictly greater timestamp, ties on the
timestamp being broken by ascending row identifier `idx`. -/
def sortsBefore {α : Type} (dt idx : α → Nat) (s r : α) : Bool :=
  decide (dt r < dt s) || (decide (dt s = dt r) && decide (idx s < idx r))

/-- Number of rows of `tbl` in `r`'s partition (same `key`) that sort
before `r`. -/
def beforeCount {α : Type} (key : α → String) (dt idx : α → Nat)
    (tbl : List α) (r : α) : Nat :=
  tbl.countP fun s => (key s == key r) && sortsBefore dt idx s r

/-- `ROW_NUMBER() OVER (PARTITION BY key ORDER BY dt DESC)` of row `r`
in table `tbl`. -/
def rowNumber {α : Type} (key : α → String) (dt idx : α → Nat)
    (tbl : List α) (r : α) : Nat :=
  1 + beforeCount key dt idx tbl r

/-- `DELETE FROM t WHERE "Index" NOT IN (SELECT "Index" FROM (... ROW_NUMBER() ...)
WHERE row_num <= K)`: keep exactly the rows whose identifier equals the
identifier of some row numbered at most `K`. -/
def windowTopK {α : Type} (key : α → String) (dt idx : α → Nat)
    (K : Nat) (tbl : List α) : List α :=
  tbl.filter fun r =>
    tbl.any fun s => (idx s == idx r) && decide (rowNumber key dt idx tbl s ≤ K)

/-- The correlated subquery `SELECT MIN(rowid) FROM t p2 WHERE <same key>`:
minimum rowid over `r`'s duplicate group in `tbl` (the fold is seeded with
`r`'s own rowid, which belongs to the group whenever `r ∈ tbl` and the key
relation is reflexive). -/
def groupMinRowid {α : Type} (samekey : α → α → Bool) (rowid : α → Nat)
    (tbl : List α) (r : α) : Nat :=
  ((tbl.filter (samekey r)).map rowid).foldr Nat.min (rowid r)

/-- `DELETE FROM t WHERE rowid > (SELECT MIN(rowid) FROM t p2 WHERE <same key>)`:
keep exactly the rows whose rowid is not greater than their group's
minimum rowid. -/
def dedupByMinRowid {α : Type} (samekey : α → α → Bool) (rowid : α → Nat)
    (tbl : List α) : List α :=
  tbl.filter fun r => !decide (groupMinRowid samekey rowid tbl r < rowid r)

/-- Row of `Online_History`: columns `"Index"` and `Scan_Date`. -/
structure OnlineHistoryRow where
  Index : Nat
  Scan_Date : Nat
deriving DecidableEq

/-- Row of `Events`: column `eve_DateTime`. -/
structure EventsRow where
  eve_DateTime : Nat
deriving DecidableEq

/-- Row of `Plugins_History`: columns `"Index"`, `Plugin`, `DateTimeChanged`. -/
structure PluginsHistoryRow where
  Index : Nat
  Plugin : String
  DateTimeChanged : Nat
deriving DecidableEq

/-- Row of `Notifications`: columns `"Index"` and `DateTimeCreated`. -/
structure NotificationsRow where
  Index : Nat
  DateTimeCreated : Nat
deriving DecidableEq

/-- Row of `AppEvents`: columns `"Index"` and `DateTimeCreated`. -/
structure AppEventsRow where
  Index : Nat
  DateTimeCreated : Nat
deriving DecidableEq

/-- Row of `Devices`: columns `dev_NewDevice` and `dev_FirstConnection`. -/
structure DevicesRow where
  dev_NewDevice : Nat
  dev_FirstConnection : Nat
deriving DecidableEq

/-- Row of `Pholus_Scan`: rowid plus columns `Time`, `MAC`, `Value`,
`Record_Type`. -/
structure PholusScanRow where
  rowid : Nat
  Time : Nat
  MAC : String
  Value : String
  Record_Type : String
deriving DecidableEq

/-- Row of `Plugins_Objects`: rowid plus columns `Plugin`,
`Object_PrimaryID`, `Object_SecondaryID`, `UserData`. -/
structure PluginsObjectsRow where
  rowid : Nat
  Plugin : String
  Object_PrimaryID : String
  Object_SecondaryID : String
  UserData : String
deriving DecidableEq

/-- `DELETE from Online_History where "Index" not in (SELECT "Index" from
Online_History order by Scan_Date desc limit 150)`: the subquery selects
the identifiers of the 150 first-ranking rows by `Scan_Date` descending,
i.e. the rows numbered at most 150 in the single (unpartitioned) window. -/
def cleanupOnlineHistory (tbl : List OnlineHistoryRow) : List OnlineHistoryRow :=
  windowTopK (fun _ => "") OnlineHistoryRow.Scan_Date OnlineHistoryRow.Index 150 tbl

/-- `DELETE FROM Events WHERE eve_DateTime <= date('now', '-N day')`. -/
def cleanupEvents (now N : Nat) (tbl : List EventsRow) : List EventsRow :=
  tbl.filter fun r => !decide (r.eve_DateTime ≤ sqlDateNowMinusDays now N)

/-- `DELETE FROM Plugins_History WHERE "Index" NOT IN (... ROW_NUMBER()
OVER(PARTITION BY "Plugin" ORDER BY DateTimeChanged DESC) ... WHERE
row_num <= PLUGINS_KEEP_HIST)`. -/
def trimPluginsHistory (K : Nat) (tbl : List PluginsHistoryRow) : List PluginsHistoryRow :=
  windowTopK PluginsHistoryRow.Plugin PluginsHistoryRow.DateTimeChanged
    PluginsHistoryRow.Index K tbl

/-- `DELETE FROM Notifications WHERE "Index" NOT IN (... ROW_NUMBER()
OVER(PARTITION BY "Notifications" ORDER BY DateTimeCreated DESC) ...)`.
Modelled from the spec: the schema of the `Notifications` table is not in
the sources; per the spec the quoted identifier `"Notifications"` "does
not vary across rows" (SQLite resolves a double-quoted non-column name to
a string literal), so the partition key is the constant string
`"Notifications"`. -/
def trimNotifications (K : Nat) (tbl : List NotificationsRow) : List NotificationsRow :=
  windowTopK (fun _ => "Notifications") NotificationsRow.DateTimeCreated
    NotificationsRow.Index K tbl

/-- `DELETE FROM AppEvents WHERE "Index" NOT IN (... ROW_NUMBER()
OVER(PARTITION BY "AppEvents" ORDER BY DateTimeCreated DESC) ...)`.
Modelled from the spec: as for `Notifications`, the partition key is the
constant string `"AppEvents"`. -/
def trimAppEvents (K : Nat) (tbl : List AppEventsRow) : List AppEventsRow :=
  windowTopK (fun _ => "AppEvents") AppEventsRow.DateTimeCreated
    AppEventsRow.Index K tbl

/-- `if HRS_TO_KEEP_NEWDEV != 0: DELETE FROM Devices WHERE dev_NewDevice = 1
AND dev_FirstConnection < date('now', '-H hour')`. -/
def cleanupNewDevices (now H : Nat) (tbl : List DevicesRow) : List DevicesRow :=
  if H ≠ 0 then
    tbl.filter fun r =>
      !((r.dev_NewDevice == 1) && decide (r.dev_FirstConnection < sqlDateNowMinusHours now H))
  else tbl

/-- `if PHOLUS_DAYS_DATA != "" and PHOLUS_DAYS_DATA != 0: DELETE FROM
Pholus_Scan WHERE Time <= date('now', '-D day')`; `none` models the
empty-string setting value. -/
def pholusAgeOut (now : Nat) (D : Option Nat) (tbl : List PholusScanRow) : List PholusScanRow :=
  match D with
  | none => tbl
  | some 0 => tbl
  | some d => tbl.filter fun r => !decide (r.Time ≤ sqlDateNowMinusDays now d)

/-- The duplicate key of `Pholus_Scan`: equality on `MAC`, `Value`,
`Record_Type` (the correlated `WHERE` of the de-dupe statement). -/
def pholusSameKey (r s : PholusScanRow) : Bool :=
  (s.MAC == r.MAC) && (s.Value == r.Value) && (s.Record_Type == r.Record_Type)

/-- `DELETE FROM Pholus_Scan WHERE rowid > (SELECT MIN(rowid) FROM
Pholus_Scan p2 WHERE <same MAC, Value, Record_Type>)`. -/
def dedupPholusScan (tbl : List PholusScanRow) : List PholusScanRow :=
  dedupByMinRowid pholusSameKey PholusScanRow.rowid tbl

/-- The duplicate key of `Plugins_Objects`: equality on `Plugin`,
`Object_PrimaryID`, `Object_SecondaryID`, `UserData`. -/
def pluginsObjectsSameKey (r s : PluginsObjectsRow) : Bool :=
  (s.Plugin == r.Plugin) && (s.Object_PrimaryID == r.Object_PrimaryID) &&
    (s.Object_SecondaryID == r.Object_SecondaryID) && (s.UserData == r.UserData)

/-- `DELETE FROM Plugins_Objects WHERE rowid > (SELECT MIN(rowid) FROM
Plugins_Objects p2 WHERE <same Plugin, PrimaryID, SecondaryID, UserData>)`. -/
def dedupPluginsObjects (tbl : List PluginsObjectsRow) : List PluginsObjectsRow :=
  dedupByMinRowid pluginsObjectsSameKey PluginsObjectsRow.rowid tbl

/-- The database state: the eight tables the script's statements name,
plus `otherTables`, standing for every other table of the database (kept
abstract as named bags of opaque rows). -/
structure DbState where
  Online_History : List OnlineHistoryRow
  Events : List EventsRow
  Plugins_History : List PluginsHistoryRow
  Notifications : List NotificationsRow
  AppEvents : List AppEventsRow
  Devices : List DevicesRow
  Pholus_Scan : List PholusScanRow
  Plugins_Objects : List PluginsObjectsRow
  otherTables : List (String × List String)
deriving DecidableEq

/-- The whole of `cleanup_database`: the fixed sequence of `DELETE`
statements, in source order.  Each statement touches a single table, the
two `Pholus_Scan` statements composing in their source order (age-out,
then de-dupe).  `now` is the clock in hours since the epoch;
`DBCLNP_NOTIFI_HIST` and `WORKFLOWS_AppEvents_hist` are the two settings
looked up during the run.  The final `commit`, `VACUUM` and `close`
change no rows. -/
def cleanup_database (now DAYS_TO_KEEP_EVENTS : Nat) (PHOLUS_DAYS_DATA : Option Nat)
    (HRS_TO_KEEP_NEWDEV PLUGINS_KEEP_HIST DBCLNP_NOTIFI_HIST WORKFLOWS_AppEvents_hist : Nat)
    (db : DbState) : DbState :=
  { db with
    Online_History := cleanupOnlineHistory db.Online_History
    Events := cleanupEvents now DAYS_TO_KEEP_EVENTS db.Events
    Plugins_History := trimPluginsHistory PLUGINS_KEEP_HIST db.Plugins_History
    Notifications := trimNotifications DBCLNP_NOTIFI_HIST db.Notifications
    AppEvents := trimAppEvents WORKFLOWS_AppEvents_hist db.AppEvents
    Devices := cleanupNewDevices now HRS_TO_KEEP_NEWDEV db.Devices
    Pholus_Scan := dedupPholusScan (pholusAgeOut now PHOLUS_DAYS_DATA db.Pholus_Scan)
    Plugins_Objects := dedupPluginsObjects db.Plugins_Objects }

/-- The connection-level operations `cleanup_database` performs, in
order: `sqlite3.connect`, the `cursor.execute` calls, `conn.commit`, the
`VACUUM` execute, `conn.close`. -/
inductive DbOp where
  | connect
  | execStmt (n : Nat)
  | commit
  | vacuum
  | close
deriving DecidableEq

/-- The straight-line operation sequence of `cleanup_database`.
Statements are numbered in source order: 1 `Online_History`, 2 `Events`,
3 `Plugins_History`, 4 `Notifications`, 5 `AppEvents`, 6 `Devices`
(only when `HRS_TO_KEEP_NEWDEV != 0`), 7 `Pholus_Scan` age-out (only
when `PHOLUS_DAYS_DATA` is set and nonzero), 8 `Pholus_Scan` de-dupe,
9 `Plugins_Objects` de-dupe. -/
def scriptOps (newDevOn pholusOn : Bool) : List DbOp :=
  [DbOp.connect, DbOp.execStmt 1, DbOp.execStmt 2, DbOp.execStmt 3,
    DbOp.execStmt 4, DbOp.execStmt 5]
  ++ (if newDevOn then [DbOp.execStmt 6] else [])
  ++ (if pholusOn then [DbOp.execStmt 7] else [])
  ++ [DbOp.execStmt 8, DbOp.execStmt 9, DbOp.commit, DbOp.vacuum, DbOp.close]

/-- The operations that complete in a run in which `fails` marks the
raising calls: `cleanup_database` has no `try`/`finally`, so the first
raising call aborts the function and the completed operations are the
longest failure-free prefix. -/
def runScript (fails : DbOp → Bool) (newDevOn pholusOn : Bool) : List DbOp :=
  (scriptOps newDevOn pholusOn).takeWhile fun op => !fails op

/-- Strict monotonicity of `countP`: if `p` implies `q` on the list and
some member satisfies `q` but not `p`, the `p`-count is strictly below
the `q`-count. -/
theorem countP_lt_of_mem {α : Type} {p q : α → Bool} {l : List α}
    (h : ∀ x ∈ l, p x = true → q x = true) {a : α} (ha : a ∈ l)
    (hqa : q a = true) (hpa : p a = false) :
    l.countP p < l.countP q := by
  obtain ⟨s, t, rfl⟩ := List.append_of_mem ha
  have hs : s.countP p ≤ s.countP q :=
    List.countP_mono_left fun x hx => h x (by simp [hx])
  have ht : t.countP p ≤ t.countP q :=
    List.countP_mono_left fun x hx => h x (by simp [hx])
  rw [List.countP_append, List.countP_append, List.countP_cons, List.countP_cons,
    hpa, hqa]
  simp
  omega

/-- The `ORDER BY dt DESC` order is irreflexive. -/
theorem sortsBefore_irrefl {α : Type} (dt idx : α → Nat) (r : α) :
    sortsBefore dt idx r r = false := by
  simp [sortsBefore]

/-- The `ORDER BY dt DESC` order is transitive. -/
theorem sortsBefore_trans {α : Type} (dt idx : α → Nat) {t s r : α}
    (h1 : sortsBefore dt idx t s = true) (h2 : sortsBefore dt idx s r = true) :
    sortsBefore dt idx t r = true := by
  simp only [sortsBefore, Bool.or_eq_true, Bool.and_eq_true, decide_eq_true_eq] at h1 h2 ⊢
  omega

/-- The `ORDER BY dt DESC` order is total on rows with distinct
identifiers. -/
theorem sortsBefore_total {α : Type} (dt idx : α → Nat) {s r : α}
    (h : idx s ≠ idx r) :
    sortsBefore dt idx s r = true ∨ sortsBefore dt idx r s = true := by
  simp only [sortsBefore, Bool.or_eq_true, Bool.and_eq_true, decide_eq_true_eq]
  omega

/-- A row sorting before another row of the same partition has the
strictly smaller before-count. -/
theorem beforeCount_lt {α : Type} (key : α → String) (dt idx : α → Nat)
    {tbl : List α} {r s : α} (hr : r ∈ tbl) (hkey : key r = key s)
    (hrs : sortsBefore dt idx r s = true) :
    beforeCount key dt idx tbl r < beforeCount key dt idx tbl s := by
  unfold beforeCount
  refine countP_lt_of_mem ?_ hr ?_ ?_
  · intro x hx hpx
    rw [Bool.and_eq_true, beq_iff_eq] at hpx ⊢
    exact ⟨hpx.1.trans hkey, sortsBefore_trans dt idx hpx.2 hrs⟩
  · rw [Bool.and_eq_true, beq_iff_eq]
    exact ⟨hkey, hrs⟩
  · rw [Bool.and_eq_false_iff]
    exact Or.inr (sortsBefore_irrefl dt idx r)

/-- Membership in the windowed top-`K` deletion's result: when the row
identifiers are unique, a row of the table is kept iff fewer than `K`
rows of its partition sort before it. -/
theorem windowTopK_mem_iff {α : Type} (key : α → String) (dt idx : α → Nat)
    {K : Nat} {tbl : List α} (hidx : (tbl.map idx).Nodup) {r : α} (hr : r ∈ tbl) :
    r ∈ windowTopK key dt idx K tbl ↔ beforeCount key dt idx tbl r < K := by
  unfold windowTopK
  rw [List.mem_filter]
  constructor
  · rintro ⟨-, hany⟩
    rw [List.any_eq_true] at hany
    obtain ⟨s, hs, hcond⟩ := hany
    rw [Bool.and_eq_true, beq_iff_eq, decide_eq_true_eq] at hcond
    have hsr : s = r := List.inj_on_of_nodup_map hidx hs hr hcond.1
    have hrank := hcond.2
    rw [hsr] at hrank
    unfold rowNumber at hrank
    omega
  · intro hlt
    refine ⟨hr, ?_⟩
    rw [List.any_eq_true]
    refine ⟨r, hr, ?_⟩
    rw [Bool.and_eq_true, beq_iff_eq, decide_eq_true_eq]
    refine ⟨rfl, ?_⟩
    unfold rowNumber
    omega

/-- Per-partition cardinality bound of the windowed top-`K` deletion:
when row identifiers are unique, at most `K` rows of any one partition
survive. -/
theorem windowTopK_filter_length_le {α : Type} (key : α → String) (dt idx : α → Nat)
    (K : Nat) (tbl : List α) (hidx : (tbl.map idx).Nodup) (p : String) :
    ((windowTopK key dt idx K tbl).filter (fun r => key r == p)).length ≤ K := by
  set L := (windowTopK key dt idx K tbl).filter (fun r => key r == p) with hLdef
  have hsubW : List.Sublist (windowTopK key dt idx K tbl) tbl := List.filter_sublist tbl
  have hsubL : List.Sublist L tbl := (List.filter_sublist _).trans hsubW
  have htblN : tbl.Nodup := List.Nodup.of_map idx hidx
  have hLN : L.Nodup := hsubL.nodup htblN
  have hmem : ∀ x ∈ L, x ∈ tbl ∧ key x = p ∧ beforeCount key dt idx tbl x < K := by
    intro x hx
    rw [hLdef, List.mem_filter] at hx
    obtain ⟨hxW, hxp⟩ := hx
    rw [beq_iff_eq] at hxp
    have hxtbl : x ∈ tbl := hsubW.subset hxW
    exact ⟨hxtbl, hxp, (windowTopK_mem_iff key dt idx hidx hxtbl).1 hxW⟩
  have hinj : ∀ x ∈ L, ∀ y ∈ L,
      beforeCount key dt idx tbl x = beforeCount key dt idx tbl y → x = y := by
    intro x hx y hy hbc
    by_contra hne
    have hxm := hmem x hx
    have hym := hmem y hy
    have hidxne : idx x ≠ idx y := fun he =>
      hne (List.inj_on_of_nodup_map hidx hxm.1 hym.1 he)
    have hkxy : key x = key y := hxm.2.1.trans hym.2.1.symm
    rcases sortsBefore_total dt idx hidxne with hxy | hyx
    · have := beforeCount_lt key dt idx hxm.1 hkxy hxy
      omega
    · have := beforeCount_lt key dt idx hym.1 hkxy.symm hyx
      omega
  have hmapN : (L.map (beforeCount key dt idx tbl)).Nodup := List.Nodup.map_on hinj hLN
  have hsubR : (L.map (beforeCount key dt idx tbl)).toFinset ⊆ Finset.range K := by
    intro n hn
    rw [List.mem_toFinset, List.mem_map] at hn
    obtain ⟨x, hx, rfl⟩ := hn
    rw [Finset.mem_range]
    exact (hmem x hx).2.2
  have h1 : (L.map (beforeCount key dt idx tbl)).toFinset.card ≤ K := by
    calc (L.map (beforeCount key dt idx tbl)).toFinset.card
        ≤ (Finset.range K).card := Finset.card_le_card hsubR
      _ = K := Finset.card_range K
  have h2 : (L.map (beforeCount key dt idx tbl)).length
      = (L.map (beforeCount key dt idx tbl)).toFinset.card :=
    (List.toFinset_card_of_nodup hmapN).symm
  have h3 : L.length = (L.map (beforeCount key dt idx tbl)).length := by simp
  omega

/-- A deleted row never has a timestamp above a retained row of the same
partition. -/
theorem windowTopK_deleted_le {α : Type} (key : α → String) (dt idx : α → Nat)
    {K : Nat} {tbl : List α} (hidx : (tbl.map idx).Nodup) {r d : α}
    (hr : r ∈ windowTopK key dt idx K tbl) (hd : d ∈ tbl)
    (hdel : d ∉ windowTopK key dt idx K tbl) (hkey : key d = key r) :
    dt d ≤ dt r := by
  have hrtbl : r ∈ tbl := (List.filter_sublist tbl).subset hr
  have hbr : beforeCount key dt idx tbl r < K :=
    (windowTopK_mem_iff key dt idx hidx hrtbl).1 hr
  have hbd : ¬ beforeCount key dt idx tbl d < K := fun h =>
    hdel ((windowTopK_mem_iff key dt idx hidx hd).2 h)
  by_contra hlt
  push_neg at hlt
  have hsb : sortsBefore dt idx d r = true := by
    simp only [sortsBefore, Bool.or_eq_true, Bool.and_eq_true, decide_eq_true_eq]
    omega
  have := beforeCount_lt key dt idx hd hkey hsb
  omega

/-- The windowed top-`K` deletion is idempotent when row identifiers are
unique. -/
theorem windowTopK_idem {α : Type} (key : α → String) (dt idx : α → Nat)
    (K : Nat) (tbl : List α) (hidx : (tbl.map idx).Nodup) :
    windowTopK key dt idx K (windowTopK key dt idx K tbl) = windowTopK key dt idx K tbl := by
  have hsubW : List.Sublist (windowTopK key dt idx K tbl) tbl := List.filter_sublist tbl
  have hWdef : windowTopK key dt idx K (windowTopK key dt idx K tbl)
      = (windowTopK key dt idx K tbl).filter
          (fun r => (windowTopK key dt idx K tbl).any fun s =>
            (idx s == idx r) && decide (rowNumber key dt idx (windowTopK key dt idx K tbl) s ≤ K)) := rfl
  rw [hWdef]
  apply List.filter_eq_self.mpr
  intro r hrW
  have hrtbl : r ∈ tbl := hsubW.subset hrW
  have hbc : beforeCount key dt idx tbl r < K :=
    (windowTopK_mem_iff key dt idx hidx hrtbl).1 hrW
  have hbc2 : beforeCount key dt idx (windowTopK key dt idx K tbl) r
      ≤ beforeCount key dt idx tbl r :=
    List.Sublist.countP_le _ hsubW
  rw [List.any_eq_true]
  refine ⟨r, hrW, ?_⟩
  rw [Bool.and_eq_true, beq_iff_eq, decide_eq_true_eq]
  refine ⟨rfl, ?_⟩
  unfold rowNumber
  omega

/-- A fold of `Nat.min` is bounded by each folded element. -/
theorem foldr_min_le_of_mem {l : List Nat} {b x : Nat} (hx : x ∈ l) :
    l.foldr Nat.min b ≤ x := by
  induction l with
  | nil => cases hx
  | cons a t ih =>
    rw [List.foldr_cons]
    rcases List.mem_cons.mp hx with rfl | hxt
    · exact Nat.min_le_left _ _
    · exact le_trans (Nat.min_le_right _ _) (ih hxt)

/-- A lower bound of the seed and of every element bounds the fold of
`Nat.min`. -/
theorem le_foldr_min {l : List Nat} {a b : Nat} (hb : a ≤ b)
    (h : ∀ x ∈ l, a ≤ x) : a ≤ l.foldr Nat.min b := by
  induction l with
  | nil => simpa
  | cons c t ih =>
    rw [List.foldr_cons]
    exact Nat.le_min.mpr ⟨h c (by simp), ih fun x hx => h x (by simp [hx])⟩

/-- Membership in the de-duplication's result: a row of the table is kept
iff its rowid is minimal over every same-key row of the table. -/
theorem dedupByMinRowid_mem_iff {α : Type} (samekey : α → α → Bool) (rowid : α → Nat)
    (tbl : List α) {r : α} (hr : r ∈ tbl) :
    r ∈ dedupByMinRowid samekey rowid tbl ↔
      ∀ s ∈ tbl, samekey r s = true → rowid r ≤ rowid s := by
  unfold dedupByMinRowid
  rw [List.mem_filter]
  constructor
  · rintro ⟨-, hkeep⟩ s hs hkeyrs
    rw [Bool.not_eq_true', decide_eq_false_iff_not, Nat.not_lt] at hkeep
    refine le_trans hkeep ?_
    unfold groupMinRowid
    apply foldr_min_le_of_mem
    rw [List.mem_map]
    refine ⟨s, ?_, rfl⟩
    rw [List.mem_filter]
    exact ⟨hs, hkeyrs⟩
  · intro hall
    refine ⟨hr, ?_⟩
    rw [Bool.not_eq_true', decide_eq_false_iff_not, Nat.not_lt]
    unfold groupMinRowid
    apply le_foldr_min le_rfl
    intro x hx
    rw [List.mem_map] at hx
    obtain ⟨s, hs, rfl⟩ := hx
    rw [List.mem_filter] at hs
    exact hall s hs.1 hs.2

/-- Two retained rows whose keys match in both directions carry the same
rowid. -/
theorem dedupByMinRowid_rowid_eq {α : Type} (samekey : α → α → Bool) (rowid : α → Nat)
    {tbl : List α} {r s : α}
    (hr : r ∈ dedupByMinRowid samekey rowid tbl)
    (hs : s ∈ dedupByMinRowid samekey rowid tbl)
    (hrs : samekey r s = true) (hsr : samekey s r = true) :
    rowid r = rowid s := by
  have hrtbl : r ∈ tbl := (List.filter_sublist tbl).subset hr
  have hstbl : s ∈ tbl := (List.filter_sublist tbl).subset hs
  exact le_antisymm
    ((dedupByMinRowid_mem_iff samekey rowid tbl hrtbl).1 hr s hstbl hrs)
    ((dedupByMinRowid_mem_iff samekey rowid tbl hstbl).1 hs r hrtbl hsr)

/-- Filtering a list whose members already all pass some filter of `p`
changes nothing. -/
theorem filter_idem_of_mem {α : Type} (p : α → Bool) {l m : List α}
    (h : ∀ a ∈ m, a ∈ List.filter p l) : m.filter p = m :=
  List.filter_eq_self.mpr fun a ha => (List.mem_filter.1 (h a ha)).2

/-- The de-duplication is idempotent. -/
theorem dedupByMinRowid_idem {α : Type} (samekey : α → α → Bool) (rowid : α → Nat)
    (tbl : List α) :
    dedupByMinRowid samekey rowid (dedupByMinRowid samekey rowid tbl)
      = dedupByMinRowid samekey rowid tbl := by
  have hdef : dedupByMinRowid samekey rowid (dedupByMinRowid samekey rowid tbl)
      = (dedupByMinRowid samekey rowid tbl).filter
          (fun r => !decide (groupMinRowid samekey rowid
            (dedupByMinRowid samekey rowid tbl) r < rowid r)) := rfl
  rw [hdef]
  apply List.filter_eq_self.mpr
  intro r hrD
  have hrtbl : r ∈ tbl := (List.filter_sublist tbl).subset hrD
  have hmin : ∀ s ∈ tbl, samekey r s = true → rowid r ≤ rowid s :=
    (dedupByMinRowid_mem_iff samekey rowid tbl hrtbl).1 hrD
  rw [Bool.not_eq_true', decide_eq_false_iff_not, Nat.not_lt]
  unfold groupMinRowid
  apply le_foldr_min le_rfl
  intro x hx
  rw [List.mem_map] at hx
  obtain ⟨s, hs, rfl⟩ := hx
  rw [List.mem_filter] at hs
  exact hmin s ((List.filter_sublist tbl).subset hs.1) hs.2

/-- The new-device deletion only removes rows. -/
theorem cleanupNewDevices_sublist (now H : Nat) (tbl : List DevicesRow) :
    List.Sublist (cleanupNewDevices now H tbl) tbl := by
  unfold cleanupNewDevices
  by_cases hH : H = 0
  · simp [hH]
  · rw [if_pos hH]
    exact List.filter_sublist tbl

/-- The Pholus age-out only removes rows. -/
theorem pholusAgeOut_sublist (now : Nat) (D : Option Nat) (tbl : List PholusScanRow) :
    List.Sublist (pholusAgeOut now D tbl) tbl := by
  unfold pholusAgeOut
  match D with
  | none => exact List.Sublist.refl tbl
  | some 0 => exact List.Sublist.refl tbl
  | some (d+1) => exact List.filter_sublist tbl

/-- The new-device deletion is idempotent. -/
theorem cleanupNewDevices_idem (now H : Nat) (tbl : List DevicesRow) :
    cleanupNewDevices now H (cleanupNewDevices now H tbl) = cleanupNewDevices now H tbl := by
  unfold cleanupNewDevices
  by_cases hH : H = 0
  · simp [hH]
  · rw [if_pos hH, if_pos hH]
    exact filter_idem_of_mem _ fun a ha => ha

/-- The two Pholus_Scan statements, run again after themselves, change
nothing. -/
theorem pholus_steps_idem (now : Nat) (D : Option Nat) (tbl : List PholusScanRow) :
    dedupPholusScan (pholusAgeOut now D (dedupPholusScan (pholusAgeOut now D tbl)))
      = dedupPholusScan (pholusAgeOut now D tbl) := by
  have hage : pholusAgeOut now D (dedupPholusScan (pholusAgeOut now D tbl))
      = dedupPholusScan (pholusAgeOut now D tbl) := by
    match D with
    | none => rfl
    | some 0 => rfl
    | some (d+1) =>
      exact filter_idem_of_mem _ fun a ha => (List.filter_sublist _).subset ha
  rw [hage]
  exact dedupByMinRowid_idem pholusSameKey PholusScanRow.rowid _

/-- C1: after a `Plugins_History` run with cap `K` (row identifiers in
the `"Index"` column unique, as for a rowid column), every distinct
`Plugin` value retains at most `K` rows, and a row of the table is
retained exactly when fewer than `K` rows of its own plugin sort before
it (strictly greater `DateTimeChanged`, ties broken by `Index`) — the
retained set is the `K` newest rows per plugin, and a row's fate depends
only on the rows of its own plugin. -/
theorem C1_pluginsHistory_perPlugin_topK (K : Nat) (tbl : List PluginsHistoryRow)
    (hidx : (tbl.map PluginsHistoryRow.Index).Nodup) :
    (∀ p : String,
      ((trimPluginsHistory K tbl).filter (fun r => r.Plugin == p)).length ≤ K)
    ∧ ∀ r ∈ tbl, (r ∈ trimPluginsHistory K tbl ↔
        beforeCount PluginsHistoryRow.Plugin PluginsHistoryRow.DateTimeChanged
          PluginsHistoryRow.Index tbl r < K) := by
  constructor
  · intro p
    exact windowTopK_filter_length_le PluginsHistoryRow.Plugin
      PluginsHistoryRow.DateTimeChanged PluginsHistoryRow.Index K tbl hidx p
  · intro r hr
    exact windowTopK_mem_iff PluginsHistoryRow.Plugin
      PluginsHistoryRow.DateTimeChanged PluginsHistoryRow.Index hidx hr

/-- Scenario table for the `Plugins_History` trim: five rows for plugin
"X" with increasing `DateTimeChanged`, two rows for plugin "Y". -/
def pluginsHistorySeed : List PluginsHistoryRow :=
  [⟨1, "X", 10⟩, ⟨2, "X", 20⟩, ⟨3, "X", 30⟩, ⟨4, "X", 40⟩, ⟨5, "X", 50⟩,
   ⟨6, "Y", 15⟩, ⟨7, "Y", 25⟩]

/-- Witness for C1 on the spec's end-to-end scenario: with cap 3, plugin
"X" keeps at most 3 rows, and exactly its 3 newest rows survive while the
"Y" rows are untouched. -/
theorem C1_witness :
    ((trimPluginsHistory 3 pluginsHistorySeed).filter (fun r => r.Plugin == "X")).length ≤ 3
    ∧ trimPluginsHistory 3 pluginsHistorySeed =
        [⟨3, "X", 30⟩, ⟨4, "X", 40⟩, ⟨5, "X", 50⟩, ⟨6, "Y", 15⟩, ⟨7, "Y", 25⟩] :=
  ⟨(C1_pluginsHistory_perPlugin_topK 3 pluginsHistorySeed (by decide)).1 "X", by decide⟩

/-- C2: the `Notifications` and `AppEvents` trims partition by a constant
(the string the quoted identifier falls back to), so with caps `K` and
`KA` each table as a whole retains at most that many rows — a global cap
keeping the rows with the greatest `DateTimeCreated` (ties broken by
`Index`), not a per-category cap. -/
theorem C2_notifications_appEvents_globalCap (K KA : Nat)
    (ntbl : List NotificationsRow) (atbl : List AppEventsRow)
    (hn : (ntbl.map NotificationsRow.Index).Nodup)
    (ha : (atbl.map AppEventsRow.Index).Nodup) :
    ((trimNotifications K ntbl).length ≤ K
      ∧ ∀ r ∈ ntbl, (r ∈ trimNotifications K ntbl ↔
          (ntbl.countP fun s => sortsBefore NotificationsRow.DateTimeCreated
            NotificationsRow.Index s r) < K))
    ∧ ((trimAppEvents KA atbl).length ≤ KA
      ∧ ∀ r ∈ atbl, (r ∈ trimAppEvents KA atbl ↔
          (atbl.countP fun s => sortsBefore AppEventsRow.DateTimeCreated
            AppEventsRow.Index s r) < KA)) := by
  constructor
  · constructor
    · have h := windowTopK_filter_length_le (fun _ => "Notifications")
        NotificationsRow.DateTimeCreated NotificationsRow.Index K ntbl hn "Notifications"
      rwa [List.filter_eq_self.mpr (fun a _ => by decide)] at h
    · intro r hr
      have h := @windowTopK_mem_iff NotificationsRow (fun _ => "Notifications")
        NotificationsRow.DateTimeCreated NotificationsRow.Index K ntbl hn r hr
      rwa [show beforeCount (fun _ => "Notifications") NotificationsRow.DateTimeCreated
          NotificationsRow.Index ntbl r
        = ntbl.countP (fun s => sortsBefore NotificationsRow.DateTimeCreated
            NotificationsRow.Index s r) from by
          unfold beforeCount
          simp] at h
  · constructor
    · have h := windowTopK_filter_length_le (fun _ => "AppEvents")
        AppEventsRow.DateTimeCreated AppEventsRow.Index KA atbl ha "AppEvents"
      rwa [List.filter_eq_self.mpr (fun a _ => by decide)] at h
    · intro r hr
      have h := @windowTopK_mem_iff AppEventsRow (fun _ => "AppEvents")
        AppEventsRow.DateTimeCreated AppEventsRow.Index KA atbl ha r hr
      rwa [show beforeCount (fun _ => "AppEvents") AppEventsRow.DateTimeCreated
          AppEventsRow.Index atbl r
        = atbl.countP (fun s => sortsBefore AppEventsRow.DateTimeCreated
            AppEventsRow.Index s r) from by
          unfold beforeCount
          simp] at h

/-- Witness for C2: a two-row `Notifications` table and a one-row
`AppEvents` table with cap 1 each keep at most one row in total, and the
`Notifications` table keeps exactly its newest row. -/
theorem C2_witness :
    (trimNotifications 1 [⟨1, 10⟩, ⟨2, 20⟩]).length ≤ 1
    ∧ (trimAppEvents 1 [⟨1, 10⟩]).length ≤ 1
    ∧ trimNotifications 1 [⟨1, 10⟩, ⟨2, 20⟩] = [⟨2, 20⟩] :=
  ⟨(C2_notifications_appEvents_globalCap 1 1 [⟨1, 10⟩, ⟨2, 20⟩] [⟨1, 10⟩]
      (by decide) (by decide)).1.1,
   (C2_notifications_appEvents_globalCap 1 1 [⟨1, 10⟩, ⟨2, 20⟩] [⟨1, 10⟩]
      (by decide) (by decide)).2.1,
   by decide⟩

/-- C3: after the de-dupe statements (rowids unique, as SQLite
guarantees), no two retained `Pholus_Scan` rows share
(`MAC`, `Value`, `Record_Type`) and no two retained `Plugins_Objects`
rows share (`Plugin`, `Object_PrimaryID`, `Object_SecondaryID`,
`UserData`); every retained row has the minimal rowid of its duplicate
group, and conversely every group's minimal-rowid row is retained —
for groups of any size. -/
theorem C3_dedup_keepMinRowid (ptbl : List PholusScanRow) (otbl : List PluginsObjectsRow)
    (hp : (ptbl.map PholusScanRow.rowid).Nodup)
    (ho : (otbl.map PluginsObjectsRow.rowid).Nodup) :
    ((∀ r ∈ dedupPholusScan ptbl, ∀ s ∈ dedupPholusScan ptbl,
        r.MAC = s.MAC → r.Value = s.Value → r.Record_Type = s.Record_Type → r = s)
      ∧ (∀ r ∈ dedupPholusScan ptbl, ∀ s ∈ ptbl,
          pholusSameKey r s = true → r.rowid ≤ s.rowid)
      ∧ (∀ r ∈ ptbl, (∀ s ∈ ptbl, pholusSameKey r s = true → r.rowid ≤ s.rowid) →
          r ∈ dedupPholusScan ptbl))
    ∧ ((∀ r ∈ dedupPluginsObjects otbl, ∀ s ∈ dedupPluginsObjects otbl,
        r.Plugin = s.Plugin → r.Object_PrimaryID = s.Object_PrimaryID →
        r.Object_SecondaryID = s.Object_SecondaryID → r.UserData = s.UserData → r = s)
      ∧ (∀ r ∈ dedupPluginsObjects otbl, ∀ s ∈ otbl,
          pluginsObjectsSameKey r s = true → r.rowid ≤ s.rowid)
      ∧ (∀ r ∈ otbl, (∀ s ∈ otbl, pluginsObjectsSameKey r s = true → r.rowid ≤ s.rowid) →
          r ∈ dedupPluginsObjects otbl)) := by
  constructor
  · refine ⟨?_, ?_, ?_⟩
    · intro r hr s hs h1 h2 h3
      have hrs : pholusSameKey r s = true := by
        unfold pholusSameKey
        rw [Bool.and_eq_true, Bool.and_eq_true, beq_iff_eq, beq_iff_eq, beq_iff_eq]
        exact ⟨⟨h1.symm, h2.symm⟩, h3.symm⟩
      have hsr : pholusSameKey s r = true := by
        unfold pholusSameKey
        rw [Bool.and_eq_true, Bool.and_eq_true, beq_iff_eq, beq_iff_eq, beq_iff_eq]
        exact ⟨⟨h1, h2⟩, h3⟩
      have hid : r.rowid = s.rowid :=
        dedupByMinRowid_rowid_eq pholusSameKey PholusScanRow.rowid hr hs hrs hsr
      exact List.inj_on_of_nodup_map hp ((List.filter_sublist ptbl).subset hr)
        ((List.filter_sublist ptbl).subset hs) hid
    · intro r hr s hs hkey
      exact (dedupByMinRowid_mem_iff pholusSameKey PholusScanRow.rowid ptbl
        ((List.filter_sublist ptbl).subset hr)).1 hr s hs hkey
    · intro r hr hall
      exact (dedupByMinRowid_mem_iff pholusSameKey PholusScanRow.rowid ptbl hr).2 hall
  · refine ⟨?_, ?_, ?_⟩
    · intro r hr s hs h1 h2 h3 h4
      have hrs : pluginsObjectsSameKey r s = true := by
        unfold pluginsObjectsSameKey
        rw [Bool.and_eq_true, Bool.and_eq_true, Bool.and_eq_true,
          beq_iff_eq, beq_iff_eq, beq_iff_eq, beq_iff_eq]
        exact ⟨⟨⟨h1.symm, h2.symm⟩, h3.symm⟩, h4.symm⟩
      have hsr : pluginsObjectsSameKey s r = true := by
        unfold pluginsObjectsSameKey
        rw [Bool.and_eq_true, Bool.and_eq_true, Bool.and_eq_true,
          beq_iff_eq, beq_iff_eq, beq_iff_eq, beq_iff_eq]
        exact ⟨⟨⟨h1, h2⟩, h3⟩, h4⟩
      have hid : r.rowid = s.rowid :=
        dedupByMinRowid_rowid_eq pluginsObjectsSameKey PluginsObjectsRow.rowid hr hs hrs hsr
      exact List.inj_on_of_nodup_map ho ((List.filter_sublist otbl).subset hr)
        ((List.filter_sublist otbl).subset hs) hid
    · intro r hr s hs hkey
      exact (dedupByMinRowid_mem_iff pluginsObjectsSameKey PluginsObjectsRow.rowid otbl
        ((List.filter_sublist otbl).subset hr)).1 hr s hs hkey
    · intro r hr hall
      exact (dedupByMinRowid_mem_iff pluginsObjectsSameKey PluginsObjectsRow.rowid otbl hr).2 hall

/-- Scenario table for the `Pholus_Scan` de-dupe: three rows sharing
(MAC "AA:BB", Value "v1", Record_Type "A") with rowids 5, 7 and 9. -/
def pholusSeed : List PholusScanRow :=
  [⟨5, 0, "AA:BB", "v1", "A"⟩, ⟨7, 0, "AA:BB", "v1", "A"⟩, ⟨9, 0, "AA:BB", "v1", "A"⟩]

/-- Witness for C3 on the spec's end-to-end scenario: of the three
duplicate rows with rowids 5, 7, 9, only rowid 5 remains, and it is
retained because its rowid is the group minimum. -/
theorem C3_witness :
    dedupPholusScan pholusSeed = [⟨5, 0, "AA:BB", "v1", "A"⟩]
    ∧ (⟨5, 0, "AA:BB", "v1", "A"⟩ : PholusScanRow) ∈ dedupPholusScan pholusSeed :=
  ⟨by decide,
   ((C3_dedup_keepMinRowid pholusSeed [] (by decide) (by decide)).1.2.2)
     ⟨5, 0, "AA:BB", "v1", "A"⟩ (by decide) (by decide)⟩

/-- C4: after the `Online_History` statement (row identifiers unique),
at most 150 rows remain, and every retained row's `Scan_Date` is at least
every deleted row's `Scan_Date`. -/
theorem C4_onlineHistory_cap150 (tbl : List OnlineHistoryRow)
    (hidx : (tbl.map OnlineHistoryRow.Index).Nodup) :
    (cleanupOnlineHistory tbl).length ≤ 150
    ∧ ∀ r ∈ cleanupOnlineHistory tbl, ∀ d ∈ tbl, d ∉ cleanupOnlineHistory tbl →
        d.Scan_Date ≤ r.Scan_Date := by
  constructor
  · have h := windowTopK_filter_length_le (fun _ => "")
      OnlineHistoryRow.Scan_Date OnlineHistoryRow.Index 150 tbl hidx ""
    rwa [List.filter_eq_self.mpr (fun a _ => by decide)] at h
  · intro r hr d hd hdel
    exact windowTopK_deleted_le (fun _ => "") OnlineHistoryRow.Scan_Date
      OnlineHistoryRow.Index hidx hr hd hdel rfl

/-- Witness for C4: a three-row `Online_History` table stays within the
bound, and a deleted row's scan date never exceeds a retained row's. -/
theorem C4_witness :
    (cleanupOnlineHistory [⟨1, 5⟩, ⟨2, 9⟩, ⟨3, 7⟩]).length ≤ 150
    ∧ cleanupOnlineHistory [⟨1, 5⟩, ⟨2, 9⟩, ⟨3, 7⟩] = [⟨1, 5⟩, ⟨2, 9⟩, ⟨3, 7⟩] :=
  ⟨(C4_onlineHistory_cap150 [⟨1, 5⟩, ⟨2, 9⟩, ⟨3, 7⟩] (by decide)).1, by decide⟩

/-- C5: after the `Events` statement with `DAYS_TO_KEEP_EVENTS = N`,
every retained row's `eve_DateTime` is at least the day `N` days before
`now` (no retained row is older than now minus `N` days), and a row of
the table is deleted exactly when its `eve_DateTime` is at or before
that cutoff. -/
theorem C5_events_ageOut (now N : Nat) (tbl : List EventsRow) :
    (∀ r ∈ cleanupEvents now N tbl, sqlDateNowMinusDays now N ≤ r.eve_DateTime)
    ∧ ∀ r ∈ tbl, (r ∉ cleanupEvents now N tbl ↔
        r.eve_DateTime ≤ sqlDateNowMinusDays now N) := by
  constructor
  · intro r hr
    rw [cleanupEvents, List.mem_filter, Bool.not_eq_true',
      decide_eq_false_iff_not] at hr
    omega
  · intro r hr
    rw [cleanupEvents, List.mem_filter]
    constructor
    · intro hnot
      by_contra hgt
      refine hnot ⟨hr, ?_⟩
      rw [Bool.not_eq_true', decide_eq_false_iff_not]
      exact hgt
    · rintro hle ⟨-, hkeep⟩
      rw [Bool.not_eq_true', decide_eq_false_iff_not] at hkeep
      exact hkeep hle

/-- Witness for C5 at `now = 48` hours, `N = 1` (cutoff day 1): the rows
with day 0 and day 1 are deleted, the row with day 2 is retained and is
no older than the cutoff. -/
theorem C5_witness :
    (⟨2⟩ : EventsRow) ∈ cleanupEvents 48 1 [⟨0⟩, ⟨1⟩, ⟨2⟩]
    ∧ sqlDateNowMinusDays 48 1 ≤ EventsRow.eve_DateTime ⟨2⟩
    ∧ cleanupEvents 48 1 [⟨0⟩, ⟨1⟩, ⟨2⟩] = [⟨2⟩] :=
  ⟨by decide,
   (C5_events_ageOut 48 1 [⟨0⟩, ⟨1⟩, ⟨2⟩]).1 ⟨2⟩ (by decide),
   by decide⟩

/-- C6: with `HRS_TO_KEEP_NEWDEV = 0` the `Devices` statement is skipped
and deletes nothing, whatever the rows contain — even a flagged new
device with an arbitrarily old first connection; with `H ≠ 0`, every
retained row flagged as a new device has `dev_FirstConnection` at or
after the day `H` hours before `now`. -/
theorem C6_newDevices_zeroHoursNoop (now H : Nat) (tbl : List DevicesRow) :
    cleanupNewDevices now 0 tbl = tbl
    ∧ (H ≠ 0 → ∀ r ∈ cleanupNewDevices now H tbl,
        r.dev_NewDevice = 1 → sqlDateNowMinusHours now H ≤ r.dev_FirstConnection) := by
  constructor
  · rw [cleanupNewDevices]
    simp
  · intro hH r hr hflag
    rw [cleanupNewDevices, if_pos hH, List.mem_filter] at hr
    have hkeep := hr.2
    rw [Bool.not_eq_true', Bool.and_eq_false_iff] at hkeep
    rcases hkeep with h | h
    · rw [beq_eq_false_iff_ne] at h
      exact absurd hflag h
    · rw [decide_eq_false_iff_not, Nat.not_lt] at h
      exact h

/-- Witness for C6 at `now = 48` hours: with `H = 0` a flagged new
device first connected at day 0 is not deleted; with `H = 5` a retained
flagged row's first connection is at or after the cutoff day. -/
theorem C6_witness :
    cleanupNewDevices 48 0 [⟨1, 0⟩] = [⟨1, 0⟩]
    ∧ sqlDateNowMinusHours 48 5 ≤ DevicesRow.dev_FirstConnection ⟨1, 2⟩ :=
  ⟨(C6_newDevices_zeroHoursNoop 48 5 [⟨1, 0⟩]).1,
   (C6_newDevices_zeroHoursNoop 48 5 [⟨1, 2⟩]).2 (by decide) ⟨1, 2⟩ (by decide) (by decide)⟩

/-- C7: running `cleanup_database` twice with the same clock, parameters
and settings values (row identifiers of the four capped tables unique)
changes nothing on the second run: the state after one run is a fixed
point. -/
theorem C7_cleanup_idempotent (now N : Nat) (D : Option Nat) (H K KN KA : Nat)
    (db : DbState)
    (h1 : (db.Online_History.map OnlineHistoryRow.Index).Nodup)
    (h2 : (db.Plugins_History.map PluginsHistoryRow.Index).Nodup)
    (h3 : (db.Notifications.map NotificationsRow.Index).Nodup)
    (h4 : (db.AppEvents.map AppEventsRow.Index).Nodup) :
    cleanup_database now N D H K KN KA (cleanup_database now N D H K KN KA db)
      = cleanup_database now N D H K KN KA db := by
  unfold cleanup_database
  congr 1
  · exact windowTopK_idem (fun _ => "") OnlineHistoryRow.Scan_Date
      OnlineHistoryRow.Index 150 db.Online_History h1
  · exact filter_idem_of_mem _ fun a ha => ha
  · exact windowTopK_idem PluginsHistoryRow.Plugin PluginsHistoryRow.DateTimeChanged
      PluginsHistoryRow.Index K db.Plugins_History h2
  · exact windowTopK_idem (fun _ => "Notifications") NotificationsRow.DateTimeCreated
      NotificationsRow.Index KN db.Notifications h3
  · exact windowTopK_idem (fun _ => "AppEvents") AppEventsRow.DateTimeCreated
      AppEventsRow.Index KA db.AppEvents h4
  · exact cleanupNewDevices_idem now H db.Devices
  · exact pholus_steps_idem now D db.Pholus_Scan
  · exact dedupByMinRowid_idem pluginsObjectsSameKey PluginsObjectsRow.rowid _

/-- A small concrete database used to instantiate the run-level
theorems. -/
def dbSeed : DbState :=
  { Online_History := [⟨1, 5⟩, ⟨2, 9⟩]
    Events := [⟨0⟩, ⟨2⟩]
    Plugins_History := pluginsHistorySeed
    Notifications := [⟨1, 3⟩, ⟨2, 4⟩]
    AppEvents := [⟨1, 3⟩]
    Devices := [⟨1, 0⟩, ⟨0, 5⟩]
    Pholus_Scan := pholusSeed
    Plugins_Objects := [⟨1, "p", "a", "b", "u"⟩, ⟨2, "p", "a", "b", "u"⟩]
    otherTables := [("Settings", ["x"])] }

/-- Witness for C7: on a concrete database with unique row identifiers,
a second identical run of `cleanup_database` changes nothing. -/
theorem C7_witness :
    (dbSeed.Online_History.map OnlineHistoryRow.Index).Nodup
    ∧ cleanup_database 48 1 (some 1) 2 3 4 5 (cleanup_database 48 1 (some 1) 2 3 4 5 dbSeed)
        = cleanup_database 48 1 (some 1) 2 3 4 5 dbSeed :=
  ⟨by decide,
   C7_cleanup_idempotent 48 1 (some 1) 2 3 4 5 dbSeed
     (by decide) (by decide) (by decide) (by decide)⟩

/-- C8: for every clock, parameters and input state, `cleanup_database`
only deletes rows — each of the eight named tables ends as a sublist of
its input — and every other table of the database is left unchanged;
nothing is ever inserted or updated. -/
theorem C8_deleteOnly_frame (now N : Nat) (D : Option Nat) (H K KN KA : Nat)
    (db : DbState) :
    List.Sublist (cleanup_database now N D H K KN KA db).Online_History db.Online_History
    ∧ List.Sublist (cleanup_database now N D H K KN KA db).Events db.Events
    ∧ List.Sublist (cleanup_database now N D H K KN KA db).Plugins_History db.Plugins_History
    ∧ List.Sublist (cleanup_database now N D H K KN KA db).Notifications db.Notifications
    ∧ List.Sublist (cleanup_database now N D H K KN KA db).AppEvents db.AppEvents
    ∧ List.Sublist (cleanup_database now N D H K KN KA db).Devices db.Devices
    ∧ List.Sublist (cleanup_database now N D H K KN KA db).Pholus_Scan db.Pholus_Scan
    ∧ List.Sublist (cleanup_database now N D H K KN KA db).Plugins_Objects db.Plugins_Objects
    ∧ (cleanup_database now N D H K KN KA db).otherTables = db.otherTables := by
  refine ⟨?_, ?_, ?_, ?_, ?_, ?_, ?_, ?_, rfl⟩
  · exact List.filter_sublist _
  · exact List.filter_sublist _
  · exact List.filter_sublist _
  · exact List.filter_sublist _
  · exact List.filter_sublist _
  · exact cleanupNewDevices_sublist now H db.Devices
  · exact (List.filter_sublist _).trans (pholusAgeOut_sublist now D db.Pholus_Scan)
  · exact List.filter_sublist _

/-- C9 counterexample: the claim says the connection is closed even when
the commit (or a statement) fails, but `cleanup_database` has no
`try`/`finally` — in a run whose commit raises, and likewise in a run
whose `Events` statement raises, the `close` call is never reached. -/
theorem C9_counterexample :
    DbOp.commit ∈ scriptOps true true
    ∧ DbOp.close ∉ runScript (fun op => op == DbOp.commit) true true
    ∧ DbOp.close ∉ runScript (fun op => op == DbOp.execStmt 2) true true := by
  decide

/-- C9 amended: on a failure-free run — whatever the two conditional
steps do — the connection is opened first, every delete statement then
runs, the single commit follows all of them, the `VACUUM` compaction
follows the commit, and the close comes last. -/
theorem C9_amended_lifecycle :
    ∀ newDevOn pholusOn : Bool, ∃ ns : List Nat,
      runScript (fun _ => false) newDevOn pholusOn
        = DbOp.connect :: (ns.map DbOp.execStmt ++ [DbOp.commit, DbOp.vacuum, DbOp.close]) := by
  intro nd ph
  cases nd <;> cases ph
  · exact ⟨[1, 2, 3, 4, 5, 8, 9], by decide⟩
  · exact ⟨[1, 2, 3, 4, 5, 7, 8, 9], by decide⟩
  · exact ⟨[1, 2, 3, 4, 5, 6, 8, 9], by decide⟩
  · exact ⟨[1, 2, 3, 4, 5, 6, 7, 8, 9], by decide⟩

/-- C10: every time cutoff is a `date('now', modifier)` day value — two
clock instants on the same calendar day give identical `Events` and
`Pholus_Scan` age-outs, and two nonzero hour parameters whose offsets
from `now` fall on the same calendar date give the identical `Devices`
deletion, so the hour parameter only changes behaviour at day
boundaries. -/
theorem C10_dayGranularity (now now2 N dd H1 H2 : Nat)
    (hday : now / 24 = now2 / 24) (hh1 : H1 ≠ 0) (hh2 : H2 ≠ 0)
    (hsame : sqlDateNowMinusHours now H1 = sqlDateNowMinusHours now H2) :
    (∀ tbl : List EventsRow, cleanupEvents now N tbl = cleanupEvents now2 N tbl)
    ∧ (∀ tbl : List PholusScanRow,
        pholusAgeOut now (some dd) tbl = pholusAgeOut now2 (some dd) tbl)
    ∧ (∀ tbl : List DevicesRow,
        cleanupNewDevices now H1 tbl = cleanupNewDevices now H2 tbl) := by
  have hcut : ∀ M : Nat, sqlDateNowMinusDays now M = sqlDateNowMinusDays now2 M := by
    intro M
    unfold sqlDateNowMinusDays
    rw [hday]
  refine ⟨?_, ?_, ?_⟩
  · intro tbl
    unfold cleanupEvents
    rw [hcut N]
  · intro tbl
    rcases dd with - | d
    · rfl
    · show List.filter (fun r => !decide (r.Time ≤ sqlDateNowMinusDays now (d + 1))) tbl
        = List.filter (fun r => !decide (r.Time ≤ sqlDateNowMinusDays now2 (d + 1))) tbl
      rw [hcut (d + 1)]
  · intro tbl
    unfold cleanupNewDevices
    rw [if_pos hh1, if_pos hh2, hsame]

/-- Witness for C10: the instants 48h and 71h share calendar day 2, and
the hour offsets 1 and 23 from 48h share calendar day 1, so the Devices
step behaves identically for both offsets on a concrete table. -/
theorem C10_witness :
    (48 : Nat) / 24 = 71 / 24
    ∧ sqlDateNowMinusHours 48 1 = sqlDateNowMinusHours 48 23
    ∧ cleanupNewDevices 48 1 [⟨1, 0⟩, ⟨1, 1⟩] = cleanupNewDevices 48 23 [⟨1, 0⟩, ⟨1, 1⟩] :=
  ⟨by decide, by decide,
   (C10_dayGranularity 48 71 0 0 1 23 (by decide) (by decide) (by decide) (by decide)).2.2
     [⟨1, 0⟩, ⟨1, 1⟩]⟩
